import Mathlib

set_option maxRecDepth 16000

/-!
Verification development for the effective-partition-key engine of
`sdk/cosmos/azure-cosmos/azure/cosmos/partition_key.py`.

The Python source is embedded shallowly: components become a closed tagged
union, byte buffers become `List Nat` (each entry a byte value), fallible
code returns `Except String`, and machine integers are `Nat` with explicit
`% 2 ^ 64` (or `% 2 ^ 32`) where overflow matters.  Floating-point values are
carried as their IEEE-754 binary64 bit patterns; the only numeric conversions
the algorithms perform (`float(int)` on values below 2^32) are exact, and are
modelled bit-exactly.

Code of the repository that is referenced by `partition_key.py` but not part
of the provided sources (`_cosmos_integers.py`, `_cosmos_murmurhash3.py`,
`_routing/routing_range.py`) is modelled from the specification; each such
definition carries a doc comment starting with `Modelled from the spec:`.
-/

namespace CosmosPartition

-- Markers from `_PartitionKeyComponentType` (partition_key.py lines 47-69).
def undefinedMarker : Nat := 0x0
def nullMarker : Nat := 0x1
def pFalseMarker : Nat := 0x2
def pTrueMarker : Nat := 0x3
def numberMarker : Nat := 0x5
def stringMarker : Nat := 0x8
def infinityMarker : Nat := 0xFF

/-- A partition-key component: the closed tagged union behind the dynamic
typing of `_SingularPartitionKeyType`.  `None` / `{}` / `NonePartitionKeyValue`
map to `null`; a Python `float` is carried as its IEEE-754 binary64 bit
pattern; `_Undefined` and `_Infinity` are the sentinel classes. -/
inductive Component where
  | null
  | bool (b : Bool)
  | int (n : Int)
  | float (bits : Nat)
  | str (s : String)
  | undefined
  | infinity
  deriving DecidableEq, Repr

/-- UTF-8 encoding of one Unicode code point, as CPython's
`str.encode("utf-8")` produces it (byte values listed most significant
leading-byte first). -/
def utf8EncodeChar (c : Nat) : List Nat :=
  if c < 0x80 then [c]
  else if c < 0x800 then [0xC0 + (c >>> 6), 0x80 + (c &&& 0x3F)]
  else if c < 0x10000 then
    [0xE0 + (c >>> 12), 0x80 + ((c >>> 6) &&& 0x3F), 0x80 + (c &&& 0x3F)]
  else
    [0xF0 + (c >>> 18), 0x80 + ((c >>> 12) &&& 0x3F), 0x80 + ((c >>> 6) &&& 0x3F),
      0x80 + (c &&& 0x3F)]

/-- Embeds `value.encode("utf-8")` for a Python `str`: the concatenated UTF-8 bytes
of its code points. -/
def pyEncodeUtf8 (s : String) : List Nat :=
  s.data.flatMap fun c => utf8EncodeChar c.toNat

/-- The `count` least-significant bytes of `n`, little-endian (the layout of
`int.to_bytes(count, "little")`). -/
def leBytes (n : Nat) (count : Nat) : List Nat :=
  (List.range count).map fun i => (n >>> (8 * i)) % 256

def hexDigitLower (n : Nat) : Char := "0123456789abcdef".data.getD n '0'

def hexDigitUpper (n : Nat) : Char := "0123456789ABCDEF".data.getD n '0'

/-- Embeds `binascii.hexlify(...).decode()` as used by `_to_hex` (line 388-389):
two lowercase hex digits per byte. -/
def toHexLower (bytes : List Nat) : String :=
  ⟨bytes.flatMap fun b => [hexDigitLower (b >>> 4), hexDigitLower (b &&& 0xF)]⟩

-- `"{:02X}".format(x)` for a byte x (two uppercase hex digits).
def byteToHexUpper (b : Nat) : String :=
  ⟨[hexDigitUpper (b >>> 4), hexDigitUpper (b &&& 0xF)]⟩

/-- Python `"".join(l)` for a list of strings. -/
def pyJoin (l : List String) : String := ⟨(l.map String.data).flatten⟩

/-- ASCII upper-casing of one character; on the hexadecimal characters the
algorithms produce this agrees with Python `str.upper()`. -/
def upperChar (c : Char) : Char :=
  if 'a' ≤ c ∧ c ≤ 'z' then Char.ofNat (c.toNat - 32) else c

/-- Python `str.upper()` restricted to ASCII (the inputs here are hex). -/
def pyUpper (s : String) : String := ⟨s.data.map upperChar⟩

-- Fuelled binary logarithm (floor of log2), total and kernel-reducible.
def natLog2Aux : Nat → Nat → Nat
  | 0, _ => 0
  | fuel + 1, n => if n < 2 then 0 else natLog2Aux fuel (n / 2) + 1

def natLog2 (n : Nat) : Nat := natLog2Aux n n

/-- IEEE-754 binary64 bit pattern of a natural number, rounding to nearest
even as CPython `float(int)` does.  Exact for inputs below 2^53; every use in
this file converts values below 2^32.  Inputs at or above 2^1024 (where
CPython raises OverflowError) map to the +infinity pattern. -/
def floatBitsOfNat (n : Nat) : Nat :=
  if n = 0 then 0
  else
    let k := natLog2 n
    if k ≤ 52 then (1023 + k) * 2 ^ 52 + (n - 2 ^ k) * 2 ^ (52 - k)
    else
      let shift := k - 52
      let q := n >>> shift
      let r := n % 2 ^ shift
      let half := 2 ^ (shift - 1)
      let q := if half < r ∨ (r = half ∧ q % 2 = 1) then q + 1 else q
      if q = 2 ^ 53 then
        if 1023 ≤ k then 0x7FF0000000000000 else (1024 + k) * 2 ^ 52
      else if 1024 ≤ k then 0x7FF0000000000000
      else (1023 + k) * 2 ^ 52 + (q - 2 ^ 52)

/-- Bit pattern of `float(i)` for a Python int `i` (sign plus magnitude). -/
def floatBitsOfInt (i : Int) : Nat :=
  if i < 0 then 2 ^ 63 + floatBitsOfNat (-i).toNat else floatBitsOfNat i.toNat

/-- Embeds `struct.pack("<d", x)`: the 8 little-endian bytes of the double's bits. -/
def packDoubleLE (bits : Nat) : List Nat := leBytes bits 8

/-- Embeds `PartitionKey._write_for_hashing_core` (lines 303-327).  The branch order
of the source (True/False tested before the `int` instance check, `int`
before `float`, and no branch at all for `_Infinity`, which therefore writes
nothing) is reflected by the constructor cases. -/
def writeForHashingCore (value : Component) (stringSuffix : List Nat) : List Nat :=
  match value with
  | .bool true => [pTrueMarker]
  | .bool false => [pFalseMarker]
  | .null => [nullMarker]
  | .int n => numberMarker :: packDoubleLE (floatBitsOfInt n)
  | .float bits => numberMarker :: packDoubleLE bits
  | .str s => stringMarker :: (pyEncodeUtf8 s ++ stringSuffix)
  | .undefined => [undefinedMarker]
  | .infinity => []

/-- Embeds `PartitionKey._write_for_hashing` (289-294): legacy 0x00 string suffix. -/
def writeForHashing (value : Component) : List Nat :=
  writeForHashingCore value [0x00]

/-- Embeds `PartitionKey._write_for_hashing_v2` (296-301): 0xFF string suffix. -/
def writeForHashingV2 (value : Component) : List Nat :=
  writeForHashingCore value [0xFF]

-- 32-bit rotate left on a value reduced modulo 2^32.
def rotl32 (x r : Nat) : Nat :=
  (((x % 2 ^ 32) <<< r) % 2 ^ 32) ||| ((x % 2 ^ 32) >>> (32 - r))

def fmix32 (h0 : Nat) : Nat :=
  let h := h0 % 2 ^ 32
  let h := h ^^^ (h >>> 16)
  let h := h * 0x85EBCA6B % 2 ^ 32
  let h := h ^^^ (h >>> 13)
  let h := h * 0xC2B2AE35 % 2 ^ 32
  h ^^^ (h >>> 16)

def mm32Mix (k0 : Nat) : Nat :=
  let k := k0 * 0xCC9E2D51 % 2 ^ 32
  let k := rotl32 k 15
  k * 0x1B873593 % 2 ^ 32

def mm32Body (h : Nat) : List Nat → Nat
  | b0 :: b1 :: b2 :: b3 :: rest =>
    let k := b0 + (b1 <<< 8) + (b2 <<< 16) + (b3 <<< 24)
    let h := h ^^^ mm32Mix k
    let h := rotl32 h 13
    let h := (h * 5 + 0xE6546B64) % 2 ^ 32
    mm32Body h rest
  | [b0, b1, b2] => h ^^^ mm32Mix (b0 + (b1 <<< 8) + (b2 <<< 16))
  | [b0, b1] => h ^^^ mm32Mix (b0 + (b1 <<< 8))
  | [b0] => h ^^^ mm32Mix b0
  | [] => h

/-- Modelled from the spec: `murmurhash3_32` of `_cosmos_murmurhash3.py`
(not under `src/`); the standard MurmurHash3 x86_32 reference algorithm
(spec section 4.2), seeded, over a byte buffer. -/
def murmur32 (data : List Nat) (seed : Nat) : Nat :=
  fmix32 (mm32Body (seed % 2 ^ 32) data ^^^ data.length)

-- 64-bit rotate left on a value reduced modulo 2^64.
def rotl64 (x r : Nat) : Nat :=
  (((x % 2 ^ 64) <<< r) % 2 ^ 64) ||| ((x % 2 ^ 64) >>> (64 - r))

def fmix64 (h0 : Nat) : Nat :=
  let h := h0 % 2 ^ 64
  let h := h ^^^ (h >>> 33)
  let h := h * 0xFF51AFD7ED558CCD % 2 ^ 64
  let h := h ^^^ (h >>> 33)
  let h := h * 0xC4CEB9FE1A85EC53 % 2 ^ 64
  h ^^^ (h >>> 33)

-- Little-endian value of a byte list (first byte least significant).
def leNat (bytes : List Nat) : Nat :=
  bytes.foldr (fun b acc => b + (acc <<< 8)) 0

def mmC1 : Nat := 0x87C37B91114253D5

def mmC2 : Nat := 0x4CF5AD432745937F

def mm128Body (h1 h2 : Nat) : List Nat → Nat × Nat
  | b0 :: b1 :: b2 :: b3 :: b4 :: b5 :: b6 :: b7 ::
      b8 :: b9 :: b10 :: b11 :: b12 :: b13 :: b14 :: b15 :: rest =>
    let k1 := leNat [b0, b1, b2, b3, b4, b5, b6, b7]
    let k2 := leNat [b8, b9, b10, b11, b12, b13, b14, b15]
    let k1 := rotl64 (k1 * mmC1 % 2 ^ 64) 31 * mmC2 % 2 ^ 64
    let h1 := ((rotl64 (h1 ^^^ k1) 27 + h2) * 5 + 0x52DCE729) % 2 ^ 64
    let k2 := rotl64 (k2 * mmC2 % 2 ^ 64) 33 * mmC1 % 2 ^ 64
    let h2 := ((rotl64 (h2 ^^^ k2) 31 + h1) * 5 + 0x38495AB5) % 2 ^ 64
    mm128Body h1 h2 rest
  | tail =>
    let k1 := leNat (tail.take 8)
    let k2 := leNat (tail.drop 8)
    let h2 := if 8 < tail.length then
        h2 ^^^ (rotl64 (k2 * mmC2 % 2 ^ 64) 33 * mmC1 % 2 ^ 64)
      else h2
    let h1 := if 0 < tail.length then
        h1 ^^^ (rotl64 (k1 * mmC1 % 2 ^ 64) 31 * mmC2 % 2 ^ 64)
      else h1
    (h1, h2)

/-- Modelled from the spec: `murmurhash3_128` of `_cosmos_murmurhash3.py`
(not under `src/`); the standard MurmurHash3 x64_128 reference algorithm
(spec section 4.2) returning a uint128 composed with `h1` as the low half. -/
def murmur128 (data : List Nat) (seed1 seed2 : Nat) : Nat :=
  let p := mm128Body (seed1 % 2 ^ 64) (seed2 % 2 ^ 64) data
  let h1 := (p.1 ^^^ data.length) % 2 ^ 64
  let h2 := (p.2 ^^^ data.length) % 2 ^ 64
  let h1 := (h1 + h2) % 2 ^ 64
  let h2 := (h2 + h1) % 2 ^ 64
  let h1 := fmix64 h1
  let h2 := fmix64 h2
  let h1 := (h1 + h2) % 2 ^ 64
  let h2 := (h2 + h1) % 2 ^ 64
  h1 + (h2 <<< 64)

-- `hash_bytes[0] &= 0x3F` after the reverse (lines 340-344 and 363-367).
def clearTop2 : List Nat → List Nat
  | [] => []
  | b :: rest => (b &&& 0x3F) :: rest

/-- Embeds `PartitionKey._get_effective_partition_key_for_hash_partitioning_v2`
(lines 329-346).  `_UInt128.to_byte_array` is modelled from the spec as the
16 little-endian bytes of the uint128 (`_cosmos_integers.py` is not under
`src/`). -/
def epkHashV2 (pkValue : List Component) : String :=
  let msBytes := (pkValue.map writeForHashingV2).flatten
  let hash128 := murmur128 msBytes 0 0
  let hashBytes := (leBytes hash128 16).reverse
  let hashBytes := clearTop2 hashBytes
  pyJoin (hashBytes.map byteToHexUpper)

/-- Per-component digest of
`_get_effective_partition_key_for_multi_hash_partitioning_v2` (lines 353-368):
single-component buffer, hash128, reverse, clear top two bits, lowercase hex
via `_to_hex`. -/
def multiHashComponentHex (value : Component) : String :=
  let msBytes := writeForHashingV2 value
  let hash128 := murmur128 msBytes 0 0
  let hashV := (leBytes hash128 16).reverse
  let hashV := clearTop2 hashV
  toHexLower hashV

/-- Embeds `PartitionKey._get_effective_partition_key_for_multi_hash_partitioning_v2`
(lines 348-370): join the per-component hex digests, then `.upper()`. -/
def epkMultiHashV2 (pkValue : List Component) : String :=
  pyUpper (pyJoin (pkValue.map multiHashComponentHex))

/-- Modelled from the spec (section 4.1): `_UInt64.encode_double_as_uint64`
of `_cosmos_integers.py` (not under `src/`): reinterpret the double's bits as
unsigned 64-bit; complement if the sign bit is set, else set the sign bit. -/
def encodeDoubleAsUInt64 (bits : Nat) : Nat :=
  let b := bits % 2 ^ 64
  if 2 ^ 63 ≤ b then 2 ^ 64 - 1 - b else b + 2 ^ 63

/-- The `while payload != 0` chunk loop shared verbatim by
`_write_for_binary_encoding_v1` (lines 438-451) and
`_write_for_binary_encoding` (lines 487-500), with fuel making the recursion
structural; `none` models non-termination.  The payload is a `_UInt64`, so
the left shift wraps modulo 2^64. -/
def chunkLoop : Nat → Nat → Nat → Bool → Option (List Nat)
  | 0, _, _, _ => none
  | fuel + 1, payload, byteToWrite, firstIteration =>
    if payload = 0 then some [byteToWrite &&& 0xFE]
    else
      let rest := chunkLoop fuel ((payload <<< 7) % 2 ^ 64) ((payload >>> 56) ||| 0x01) false
      if firstIteration then rest else rest.map (byteToWrite :: ·)

/-- The number payload bytes of both binary-encoding writers (after the
`Number` marker): first chunk of 8 payload bits, then the chunk loop over the
payload shifted left by 8.  Fuel 10 is shown sufficient below. -/
def numberBody (bits : Nat) : List Nat :=
  let payload := encodeDoubleAsUInt64 bits
  (payload >>> 56) :: (chunkLoop 10 ((payload <<< 8) % 2 ^ 64) 0 true).getD []

/-- The per-index body of the string loops of both binary-encoding writers:
read `utf8_value[index]` (IndexError past the end), increment — guarded
against 0xFF in v2, unguarded in v1 — and convert with `bytes([...])`, which
rejects values outside `range(0, 256)`. -/
def encodeStringLoop (guarded : Bool) (utf8 : List Nat) : Nat → Nat → Except String (List Nat)
  | _, 0 => Except.ok []
  | i, n + 1 =>
    match utf8.get? i with
    | none => Except.error "index out of range"
    | some b =>
      let b := if guarded then (if b < 0xFF then b + 1 else b) else b + 1
      if b < 256 then (encodeStringLoop guarded utf8 (i + 1) n).map (b :: ·)
      else Except.error "bytes must be in range(0, 256)"

/-- Body of the string branch of `_write_for_binary_encoding` (v2, guarded,
lines 502-514) and `_write_for_binary_encoding_v1` (unguarded, 453-464).
The loop bound reproduces the Python
`short_string and len(utf8_value) or _MaxStringBytesToAppend + 1` idiom,
which evaluates to 101 when the string is empty (0 is falsy). -/
def encodeStringBody (guarded : Bool) (utf8 : List Nat) : Except String (List Nat) :=
  let shortString := utf8.length ≤ 100
  let count := if shortString ∧ utf8.length ≠ 0 then utf8.length else 101
  (encodeStringLoop guarded utf8 0 count).map
    fun body => body ++ (if shortString then [0x00] else [])

/-- Embeds `_write_for_binary_encoding_v1` (lines 416-467).  A `None` component
matches no branch and writes nothing. -/
def writeForBinaryEncodingV1 (value : Component) : Except String (List Nat) :=
  match value with
  | .bool b => .ok [if b then pTrueMarker else pFalseMarker]
  | .infinity => .ok [infinityMarker]
  | .int n => .ok (numberMarker :: numberBody (floatBitsOfInt n))
  | .float bits => .ok (numberMarker :: numberBody bits)
  | .str s => (encodeStringBody false (pyEncodeUtf8 s)).map (stringMarker :: ·)
  | .undefined => .ok [undefinedMarker]
  | .null => .ok []

/-- Embeds `_write_for_binary_encoding` (lines 469-517), the v2 variant: identical
to v1 except that the string-byte increment is guarded against 0xFF. -/
def writeForBinaryEncoding (value : Component) : Except String (List Nat) :=
  match value with
  | .bool b => .ok [if b then pTrueMarker else pFalseMarker]
  | .infinity => .ok [infinityMarker]
  | .int n => .ok (numberMarker :: numberBody (floatBitsOfInt n))
  | .float bits => .ok (numberMarker :: numberBody bits)
  | .str s => (encodeStringBody true (pyEncodeUtf8 s)).map (stringMarker :: ·)
  | .undefined => .ok [undefinedMarker]
  | .null => .ok []

/-- The component loop of `_to_hex_encoded_binary_string_v1` (407-412): the
isinstance tuple admits every component type except `None`, which raises
TypeError before any writing for that component. -/
def collectBinaryBytesV1 : List Component → Except String (List Nat)
  | [] => .ok []
  | c :: rest =>
    match c with
    | .null => .error "Unexpected type for PK component"
    | _ => do
      let bs ← writeForBinaryEncodingV1 c
      let more ← collectBinaryBytesV1 rest
      pure (bs ++ more)

/-- Embeds `_to_hex_encoded_binary_string_v1` (lines 405-414): write every component
with the v1 writer and hex-encode (lowercase, via `_to_hex`). -/
def toHexEncodedBinaryStringV1 (components : List Component) : Except String String :=
  (collectBinaryBytesV1 components).map toHexLower

/-- The component loop of `_to_hex_encoded_binary_string` (396-401). -/
def collectBinaryBytes : List Component → Except String (List Nat)
  | [] => .ok []
  | c :: rest =>
    match c with
    | .null => .error "Unexpected type for PK component"
    | _ => do
      let bs ← writeForBinaryEncoding c
      let more ← collectBinaryBytes rest
      pure (bs ++ more)

/-- Embeds `_to_hex_encoded_binary_string` (lines 392-403).  `BytesIO(buffer_bytes)`
copies the zero-filled 336-byte buffer, so the writes never reach
`buffer_bytes`; the function hex-encodes `ms.tell()` bytes of the untouched
zero buffer (the slice caps at the 336-byte size). -/
def toHexEncodedBinaryString (components : List Component) : Except String String :=
  (collectBinaryBytes components).map
    fun written => toHexLower (List.replicate (Nat.min written.length 336) 0)

/-- Embeds `PartitionKey._truncate_for_v1_hashing` (229-235): strings keep their
first 100 characters (code points); everything else is unchanged. -/
def truncateForV1Hashing (value : Component) : Component :=
  match value with
  | .str s => .str ⟨s.data.take 100⟩
  | v => v

/-- The in-loop coercion of
`_get_effective_partition_key_for_hash_partitioning` (lines 249-250):
`isinstance(component, int) and not isinstance(component, bool)` followed by
`float(int(_UInt32(component)))`.  `_UInt32` is modelled from the spec as
unsigned-32-bit truncation (`_cosmos_integers.py` is not under `src/`);
the result is below 2^32, so the float conversion is exact. -/
def coerceUInt32 (value : Component) : Component :=
  match value with
  | .int n => .float (floatBitsOfNat (n % (2 ^ 32 : Int)).toNat)
  | v => v

/-- Embeds `PartitionKey._get_effective_partition_key_for_hash_partitioning`
(lines 237-260), for a sequence value (the `isinstance(pk_value, str)`
branch only re-wraps a bare string into a one-element list). -/
def epkHashV1 (pkValue : List Component) : Except String String :=
  let truncatedComponents := pkValue.map truncateForV1Hashing
  let msBytes := (truncatedComponents.map fun component =>
    writeForHashing (coerceUInt32 component)).flatten
  let hashAsInt := murmur32 msBytes 0
  let hashValue := floatBitsOfNat hashAsInt
  toHexEncodedBinaryStringV1 (Component.float hashValue :: truncatedComponents)

/-- The `Union[int, str]` returned by `_get_hashed_partition_key_string`:
the int sentinels 0x00 / 0xFF or a hex string.  Python equality between a
string and an int is always false, which the sum type preserves. -/
inductive EpkVal where
  | intVal (n : Nat)
  | strVal (s : String)
  deriving DecidableEq, Repr

/-- Embeds `PartitionKey._get_hashed_partition_key_string` (lines 262-278): empty
values yield the minimum sentinel; (Hash, V1) and (Hash, V2) dispatch to the
hash algorithms; MultiHash (any version) to the multi-hash algorithm; and any
remaining combination falls through to `_to_hex_encoded_binary_string`. -/
def getHashedPartitionKeyString (kind : String) (version : Nat)
    (pkValue : List Component) : Except String EpkVal :=
  if pkValue.isEmpty then .ok (.intVal 0x00)
  else if kind == "Hash" ∧ version == 1 then (epkHashV1 pkValue).map .strVal
  else if kind == "Hash" ∧ version == 2 then .ok (.strVal (epkHashV2 pkValue))
  else if kind == "MultiHash" then .ok (.strVal (epkMultiHashV2 pkValue))
  else (toHexEncodedBinaryString pkValue).map .strVal

/-- The `{paths, kind, version}` triple of the `PartitionKey` model. -/
structure PartitionKeyDef where
  paths : List String
  kind : String
  version : Nat
  deriving DecidableEq, Repr

/-- Modelled from the spec: `Range` of `_routing/routing_range.py` (not under
`src/`), the EffectiveKeyRange record of spec section 3, with the constructor
argument order `Range(min, max, isMinInclusive, isMaxInclusive)` used at the
call sites. -/
structure EpkRange where
  min : String
  max : String
  isMinInclusive : Bool
  isMaxInclusive : Bool
  deriving DecidableEq, Repr

/-- The sentinel comparison and range construction of
`_get_epk_range_for_prefix_partition_key` (lines 201-211).  Python compares
`min_epk` to the int sentinels 0x00 and 0xFF; a string never equals an int.
For an int sentinel other than 0x00/0xFF (unreachable from the source
constants) Python would keep the raw int as `min`; it is rendered with
`str()` exactly as the `max` computation does. -/
def prefixRangeOfEpk (minEpk : EpkVal) : EpkRange :=
  match minEpk with
  | .intVal n =>
    if n = 0x00 then ⟨"", "", true, false⟩
    else if n = 0xFF then ⟨"FF", "FF", true, false⟩
    else ⟨toString n, toString n ++ "FF", true, false⟩
  | .strVal s => ⟨s, s ++ "FF", true, false⟩

/-- Embeds `PartitionKey._get_epk_range_for_prefix_partition_key` (lines 187-211).
`_get_effective_partition_key_string` delegates to
`_get_hashed_partition_key_string` (a `PartitionKey` is never an `_Infinity`
instance, so line 284-285 never fires). -/
def getEpkRangeForPrefixPartitionKey (pk : PartitionKeyDef)
    (pkValue : List Component) : Except String EpkRange :=
  if pk.kind ≠ "MultiHash" then
    .error "Effective Partition Key Range for Prefix Partition Keys is only supported for Hierarchical Partition Keys."
  else if pk.paths.length ≤ pkValue.length then
    .error (toString pkValue.length ++ " partition key components provided. Expected less than "
      ++ toString pk.paths.length
      ++ " components (number of container partition key definition components).")
  else
    (getHashedPartitionKeyString pk.kind pk.version pkValue).map prefixRangeOfEpk

/-- Embeds `PartitionKey._is_prefix_partition_key` (lines 372-379), specialised to a
sequence value (a non-sequence or bare string yields `False` directly). -/
def isPrefixPartitionKeyOfSeq (pk : PartitionKeyDef) (pkValue : List Component) : Bool :=
  pk.kind == "MultiHash" && pk.paths.length != pkValue.length

-- The two hexadecimal alphabets, for stating which characters the
-- effective-key strings may contain.
def upperHexChars : List Char := "0123456789ABCDEF".data

def lowerHexChars : List Char := "0123456789abcdef".data

def allUpperHex (s : String) : Bool := s.data.all fun c => upperHexChars.contains c

def allLowerHex (s : String) : Bool := s.data.all fun c => lowerHexChars.contains c

-- Lift the character-set predicates over `Except` (errors vacuously pass).
def allUpperHexOk : Except String String → Bool
  | .ok s => allUpperHex s
  | .error _ => true

def allLowerHexOk : Except String String → Bool
  | .ok s => allLowerHex s
  | .error _ => true

/-! Helper lemmas. -/

theorem leBytes_length (n count : Nat) : (leBytes n count).length = count := by
  simp [leBytes]

theorem clearTop2_length (l : List Nat) : (clearTop2 l).length = l.length := by
  cases l <;> simp [clearTop2]

theorem string_mk_append (l1 l2 : List Char) :
    (⟨l1 ++ l2⟩ : String) = (⟨l1⟩ : String) ++ (⟨l2⟩ : String) := rfl

theorem pyJoin_nil : pyJoin [] = "" := rfl

theorem pyJoin_cons (a : String) (l : List String) :
    pyJoin (a :: l) = a ++ pyJoin l := by
  cases a
  simp [pyJoin]
  rfl

theorem pyJoin_append (l1 l2 : List String) :
    pyJoin (l1 ++ l2) = pyJoin l1 ++ pyJoin l2 := by
  induction l1 with
  | nil => simp [pyJoin_nil]
  | cons a rest ih => simp [pyJoin_cons, ih, String.append_assoc]

theorem pyUpper_append (a b : String) :
    pyUpper (a ++ b) = pyUpper a ++ pyUpper b := by
  cases a
  cases b
  simp [pyUpper]
  rfl

theorem string_length_mk (l : List Char) : (⟨l⟩ : String).length = l.length := rfl

theorem pyUpper_length (s : String) : (pyUpper s).length = s.length := by
  cases s
  simp [pyUpper, string_length_mk]

theorem string_length_append (a b : String) :
    (a ++ b).length = a.length + b.length := by
  cases a
  cases b
  simp [string_length_mk]

theorem toHexLower_length (bytes : List Nat) :
    (toHexLower bytes).length = 2 * bytes.length := by
  induction bytes with
  | nil => rfl
  | cons b rest ih =>
    simp only [toHexLower, List.flatMap_cons, string_length_mk, List.length_append,
      List.length_cons, List.length_nil] at *
    omega

theorem multiHashComponentHex_length (c : Component) :
    (multiHashComponentHex c).length = 32 := by
  simp [multiHashComponentHex, toHexLower_length, clearTop2_length, leBytes_length]

theorem byteToHexUpper_length (b : Nat) : (byteToHexUpper b).length = 2 := rfl

theorem epkHashV2_length (v : List Component) : (epkHashV2 v).length = 32 := by
  have hlen : ∀ bytes : List Nat, (pyJoin (bytes.map byteToHexUpper)).length = 2 * bytes.length := by
    intro bytes
    induction bytes with
    | nil => rfl
    | cons b rest ih =>
      rw [List.map_cons, pyJoin_cons, string_length_append, ih, byteToHexUpper_length]
      simp [Nat.mul_add]
      omega
  simp [epkHashV2, hlen, clearTop2_length, leBytes_length]

theorem epkMultiHashV2_cons (c : Component) (rest : List Component) :
    epkMultiHashV2 (c :: rest)
      = pyUpper (multiHashComponentHex c) ++ epkMultiHashV2 rest := by
  simp [epkMultiHashV2, pyJoin_cons, pyUpper_append]

theorem epkMultiHashV2_append (l1 l2 : List Component) :
    epkMultiHashV2 (l1 ++ l2) = epkMultiHashV2 l1 ++ epkMultiHashV2 l2 := by
  simp [epkMultiHashV2, pyJoin_append, pyUpper_append]

theorem epkMultiHashV2_singleton (c : Component) :
    epkMultiHashV2 [c] = pyUpper (multiHashComponentHex c) := by
  rw [epkMultiHashV2_cons]
  show _ ++ pyUpper (pyJoin []) = _
  rw [pyJoin_nil]
  rfl

theorem epkMultiHashV2_length (v : List Component) :
    (epkMultiHashV2 v).length = 32 * v.length := by
  induction v with
  | nil => rfl
  | cons c rest ih =>
    rw [epkMultiHashV2_cons, string_length_append, ih, pyUpper_length,
      multiHashComponentHex_length, List.length_cons]
    ring

/-! Theorems for the claims. -/

/-- C1 (amended: the digest has 32 hexadecimal characters, not 36): for every
non-empty partition-key value under kind Hash and version V2, the effective
partition key is computed by writing each component with the 0xFF-suffix
hashing writer into one buffer, hashing with MurmurHash3-128 seeded (0,0),
reversing the 16 hash bytes, clearing the top 2 bits of byte 0, and
hex-encoding; the resulting string has exactly 32 hexadecimal characters
(16 bytes, two hex digits each). -/
theorem c1_hash_v2_dispatch_and_length (v : List Component) (h : v ≠ []) :
    getHashedPartitionKeyString "Hash" 2 v = Except.ok (EpkVal.strVal (epkHashV2 v))
    ∧ (epkHashV2 v).length = 32 := by
  refine ⟨?_, epkHashV2_length v⟩
  have hv : v.isEmpty = false := by
    cases v with
    | nil => exact absurd rfl h
    | cons a l => rfl
  simp [getHashedPartitionKeyString, hv]

/-- Witness for C1 at the concrete non-empty value `[true]`. -/
theorem c1_witness :
    [Component.bool true] ≠ ([] : List Component)
    ∧ (getHashedPartitionKeyString "Hash" 2 [Component.bool true]
        = Except.ok (EpkVal.strVal (epkHashV2 [Component.bool true]))
      ∧ (epkHashV2 [Component.bool true]).length = 32) :=
  ⟨by decide, c1_hash_v2_dispatch_and_length [Component.bool true] (by decide)⟩

/-- C1 counterexample: the Hash V2 effective key of the non-empty value
`[true]` does not have 36 hexadecimal characters (it has 32: the hash is a
uint128, 16 bytes, hex-encoded two characters per byte). -/
theorem c1_counterexample : (epkHashV2 [Component.bool true]).length ≠ 36 := by
  rw [epkHashV2_length]
  decide

/-- C2: the MultiHash effective key is the concatenation, in paths order, of
the per-component digests obtained by hashing each component independently;
each digest segment has the fixed length 32, so the effective key of every
prefix of the value is a string prefix (the leading fixed-length segments) of
the effective key of the full value. -/
theorem c2_multihash_concat_and_prefixes (v : List Component) (j : Nat) :
    epkMultiHashV2 v = pyJoin (v.map fun w => epkMultiHashV2 [w])
    ∧ (epkMultiHashV2 v).length = 32 * v.length
    ∧ ∃ t, epkMultiHashV2 v = epkMultiHashV2 (v.take j) ++ t := by
  refine ⟨?_, epkMultiHashV2_length v, ?_⟩
  · induction v with
    | nil => rfl
    | cons c rest ih =>
      rw [List.map_cons, pyJoin_cons, epkMultiHashV2_cons, ih, epkMultiHashV2_singleton]
  · refine ⟨epkMultiHashV2 (v.drop j), ?_⟩
    conv_lhs => rw [← List.take_append_drop j v]
    exact epkMultiHashV2_append _ _

/-- C10: every writer encodes a boolean solely as the PTrue or PFalse marker
byte, never through the Number path: the hashing writers emit the marker
alone (with either string suffix), both binary-encoding writers emit the
marker alone, and the Hash-V1 unsigned-32-bit numeric coercion and the V1
truncation leave booleans untouched. -/
theorem c10_bool_marker_only (b : Bool) (sfx : List Nat) :
    writeForHashingCore (Component.bool b) sfx = [if b then pTrueMarker else pFalseMarker]
    ∧ writeForHashing (Component.bool b) = [if b then pTrueMarker else pFalseMarker]
    ∧ writeForHashingV2 (Component.bool b) = [if b then pTrueMarker else pFalseMarker]
    ∧ writeForBinaryEncodingV1 (Component.bool b)
        = Except.ok [if b then pTrueMarker else pFalseMarker]
    ∧ writeForBinaryEncoding (Component.bool b)
        = Except.ok [if b then pTrueMarker else pFalseMarker]
    ∧ coerceUInt32 (Component.bool b) = Component.bool b
    ∧ truncateForV1Hashing (Component.bool b) = Component.bool b := by
  cases b <;> exact ⟨rfl, rfl, rfl, rfl, rfl, rfl, rfl⟩

/-- C3: for a MultiHash definition and a value with fewer components than
paths, the derived prefix range is built from the effective key with
minInclusive true and maxInclusive false; the minimum sentinel (produced
exactly by the empty value sequence) yields the range `["", ""]`, the maximum
sentinel yields `["FF", "FF"]`, and a string digest `s` yields
`[s, s ++ "FF"]`. -/
theorem c3_prefix_range_shape (pk : PartitionKeyDef) (v : List Component)
    (hk : pk.kind = "MultiHash") (hlen : v.length < pk.paths.length) :
    (∃ e, getHashedPartitionKeyString pk.kind pk.version v = Except.ok e
      ∧ getEpkRangeForPrefixPartitionKey pk v = Except.ok (prefixRangeOfEpk e))
    ∧ prefixRangeOfEpk (EpkVal.intVal 0x00) = ⟨"", "", true, false⟩
    ∧ prefixRangeOfEpk (EpkVal.intVal 0xFF) = ⟨"FF", "FF", true, false⟩
    ∧ (∀ s, prefixRangeOfEpk (EpkVal.strVal s) = ⟨s, s ++ "FF", true, false⟩)
    ∧ (∀ e, (prefixRangeOfEpk e).isMinInclusive = true
        ∧ (prefixRangeOfEpk e).isMaxInclusive = false)
    ∧ (v = [] → getHashedPartitionKeyString pk.kind pk.version v
        = Except.ok (EpkVal.intVal 0x00)) := by
  have hdisp : ∃ e, getHashedPartitionKeyString pk.kind pk.version v = Except.ok e := by
    rw [hk]
    cases v with
    | nil => exact ⟨EpkVal.intVal 0x00, rfl⟩
    | cons c rest =>
      exact ⟨EpkVal.strVal (epkMultiHashV2 (c :: rest)), by simp [getHashedPartitionKeyString]⟩
  obtain ⟨e, he⟩ := hdisp
  refine ⟨⟨e, he, ?_⟩, rfl, rfl, fun s => rfl, ?_, ?_⟩
  · rw [getEpkRangeForPrefixPartitionKey, hk]
    simp only [ne_eq, not_true_eq_false, if_false, Nat.not_le.mpr hlen, if_false, ite_false]
    rw [hk] at he
    rw [he]
    rfl
  · intro e'
    match e' with
    | .intVal n =>
      refine ⟨?_, ?_⟩ <;>
        · simp only [prefixRangeOfEpk]
          split
          · rfl
          · split <;> rfl
    | .strVal s => exact ⟨rfl, rfl⟩
  · intro hv
    subst hv
    rfl

/-- Witness for C3 at the definition `(["/a", "/b"], MultiHash, 2)` and the
empty prefix value. -/
theorem c3_witness :
    (⟨["/a", "/b"], "MultiHash", 2⟩ : PartitionKeyDef).kind = "MultiHash"
    ∧ ([] : List Component).length
        < (⟨["/a", "/b"], "MultiHash", 2⟩ : PartitionKeyDef).paths.length
    ∧ (∃ e, getHashedPartitionKeyString "MultiHash" 2 [] = Except.ok e
        ∧ getEpkRangeForPrefixPartitionKey ⟨["/a", "/b"], "MultiHash", 2⟩ []
            = Except.ok (prefixRangeOfEpk e)) :=
  ⟨rfl, by decide,
    (c3_prefix_range_shape ⟨["/a", "/b"], "MultiHash", 2⟩ [] rfl (by decide)).1⟩

/-- C4: a prefix-range request whose value has at least as many components as
the definition has paths fails with the invalid-argument error; the error is
returned before any effective key is computed. -/
theorem c4_prefix_range_length_guard (pk : PartitionKeyDef) (v : List Component)
    (hk : pk.kind = "MultiHash") (hlen : pk.paths.length ≤ v.length) :
    getEpkRangeForPrefixPartitionKey pk v
      = Except.error (toString v.length
          ++ " partition key components provided. Expected less than "
          ++ toString pk.paths.length
          ++ " components (number of container partition key definition components).") := by
  rw [getEpkRangeForPrefixPartitionKey, hk]
  simp [hlen]

/-- Witness for C4 at the definition `(["/a"], MultiHash, 2)` and the
one-component value `[null]`. -/
theorem c4_witness :
    (⟨["/a"], "MultiHash", 2⟩ : PartitionKeyDef).kind = "MultiHash"
    ∧ (⟨["/a"], "MultiHash", 2⟩ : PartitionKeyDef).paths.length
        ≤ [Component.null].length
    ∧ getEpkRangeForPrefixPartitionKey ⟨["/a"], "MultiHash", 2⟩ [Component.null]
        = Except.error (toString [Component.null].length
            ++ " partition key components provided. Expected less than "
            ++ toString (⟨["/a"], "MultiHash", 2⟩ : PartitionKeyDef).paths.length
            ++ " components (number of container partition key definition components).") :=
  ⟨rfl, by decide,
    c4_prefix_range_length_guard ⟨["/a"], "MultiHash", 2⟩ [Component.null] rfl (by decide)⟩

/-- C5 (code bug at the empty string): the claim describes the intended
behavior — String marker, incremented bytes, and a 0x00 terminator whenever
the UTF-8 length is at most 100 — but on the empty string both
binary-encoding writers raise IndexError instead: the Python loop bound
`short_string and len(utf8_value) or _MaxStringBytesToAppend + 1` evaluates
to 101 when the length is 0 (0 is falsy), and the first index access fails. -/
theorem c5_empty_string_index_error :
    writeForBinaryEncoding (Component.str "") = Except.error "index out of range"
    ∧ writeForBinaryEncodingV1 (Component.str "") = Except.error "index out of range" :=
  ⟨rfl, rfl⟩

theorem char_toNat_lt (c : Char) : c.toNat < 0x110000 := by
  rcases c.valid with h | h
  · exact Nat.lt_trans h (by norm_num)
  · exact h.2

theorem utf8EncodeChar_lt_255 (c : Nat) (h : c < 0x110000) :
    ∀ b ∈ utf8EncodeChar c, b < 0xFF := by
  intro b hb
  unfold utf8EncodeChar at hb
  split at hb
  · simp only [List.mem_singleton] at hb
    omega
  · split at hb
    · have h6 : c >>> 6 < 32 := by
        rw [Nat.shiftRight_eq_div_pow]
        have h64 : (2 : Nat) ^ 6 = 64 := rfl
        rw [h64]
        omega
      have h1 : c &&& 0x3F ≤ 0x3F := Nat.and_le_right
      simp only [List.mem_cons, List.mem_singleton] at hb
      rcases hb with rfl | rfl | hb
      · omega
      · omega
      · exact absurd hb (by simp)
    · split at hb
      · have h12 : c >>> 12 < 16 := by
          rw [Nat.shiftRight_eq_div_pow]
          have h4096 : (2 : Nat) ^ 12 = 4096 := rfl
          rw [h4096]
          omega
        have h6 : (c >>> 6) &&& 0x3F ≤ 0x3F := Nat.and_le_right
        have h1 : c &&& 0x3F ≤ 0x3F := Nat.and_le_right
        simp only [List.mem_cons, List.mem_singleton] at hb
        rcases hb with rfl | rfl | rfl | hb
        · omega
        · omega
        · omega
        · exact absurd hb (by simp)
      · have h18 : c >>> 18 < 5 := by
          rw [Nat.shiftRight_eq_div_pow]
          have hp : (2 : Nat) ^ 18 = 262144 := rfl
          rw [hp]
          omega
        have h12 : (c >>> 12) &&& 0x3F ≤ 0x3F := Nat.and_le_right
        have h6 : (c >>> 6) &&& 0x3F ≤ 0x3F := Nat.and_le_right
        have h1 : c &&& 0x3F ≤ 0x3F := Nat.and_le_right
        simp only [List.mem_cons, List.mem_singleton] at hb
        rcases hb with rfl | rfl | rfl | rfl | hb
        · omega
        · omega
        · omega
        · omega
        · exact absurd hb (by simp)

theorem pyEncodeUtf8_lt_255 (s : String) : ∀ b ∈ pyEncodeUtf8 s, b < 0xFF := by
  intro b hb
  simp only [pyEncodeUtf8, List.mem_flatMap] at hb
  obtain ⟨c, _, hbc⟩ := hb
  exact utf8EncodeChar_lt_255 c.toNat (char_toNat_lt c) b hbc

theorem encodeStringLoop_guard_irrelevant (utf8 : List Nat)
    (h : ∀ b ∈ utf8, b < 0xFF) :
    ∀ n i, encodeStringLoop false utf8 i n = encodeStringLoop true utf8 i n := by
  intro n
  induction n with
  | zero => intro i; rfl
  | succ n ih =>
    intro i
    simp only [encodeStringLoop]
    cases hg : utf8.get? i with
    | none => rfl
    | some b =>
      have hb : b < 0xFF := h b (List.get?_mem hg)
      simp only [hb, if_true, ite_true, Bool.false_eq_true, if_false, ite_false]
      rw [ih]

theorem encodeStringBody_guard_irrelevant (utf8 : List Nat)
    (h : ∀ b ∈ utf8, b < 0xFF) :
    encodeStringBody false utf8 = encodeStringBody true utf8 := by
  simp only [encodeStringBody]
  rw [encodeStringLoop_guard_irrelevant utf8 h]

/-- C6 (amended): the v1 and v2 binary-encoding writers agree byte-for-byte
on every string whose UTF-8 bytes are all below 0xFF — which is every string,
since UTF-8 never emits the byte 0xFF; at the raw byte level a 0xFF byte is
written unchanged by v2, while v1's unguarded increment produces the
out-of-range value 256 and fails the byte conversion rather than wrapping to
0x00. -/
theorem c6_writers_agree_on_strings (s : String) :
    writeForBinaryEncodingV1 (Component.str s) = writeForBinaryEncoding (Component.str s) := by
  simp only [writeForBinaryEncodingV1, writeForBinaryEncoding]
  rw [encodeStringBody_guard_irrelevant _ (pyEncodeUtf8_lt_255 s)]

/-- C6 counterexample: on the raw byte 0xFF the v1 string loop does not wrap
the byte to 0x00 — the unguarded increment yields 256, which `bytes([...])`
rejects — while the guarded v2 loop writes the byte unchanged. -/
theorem c6_counterexample :
    encodeStringBody false [0xFF] = Except.error "bytes must be in range(0, 256)"
    ∧ encodeStringBody true [0xFF] = Except.ok [0xFF, 0x00] :=
  ⟨rfl, rfl⟩

theorem or_one_odd (x : Nat) : (x ||| 1) % 2 = 1 := by
  have h1 : (x ||| 1).testBit 0 = true := by
    rw [Nat.testBit_or]
    simp
  rw [Nat.testBit_zero] at h1
  exact of_decide_eq_true h1

theorem and_254_even (b : Nat) : (b &&& 0xFE) % 2 = 0 := by
  rw [← Nat.and_one_is_mod, Nat.and_assoc]
  norm_num

theorem chunkLoop_isSome (fuel : Nat) :
    ∀ p b f, p < 2 ^ 64 → p * 2 ^ (7 * fuel) % 2 ^ 64 = 0 →
      (chunkLoop (fuel + 1) p b f).isSome = true := by
  induction fuel with
  | zero =>
    intro p b f hp h0
    have hpz : p = 0 := by
      simp at h0
      omega
    subst hpz
    rfl
  | succ fuel ih =>
    intro p b f hp h0
    by_cases hpz : p = 0
    · subst hpz
      rfl
    · have hrec : ((p <<< 7) % 2 ^ 64) * 2 ^ (7 * fuel) % 2 ^ 64 = 0 := by
        rw [Nat.mod_mul_mod, Nat.shiftLeft_eq, Nat.mul_assoc, ← Nat.pow_add]
        have h7 : 7 + 7 * fuel = 7 * (fuel + 1) := by ring
        rw [h7]
        exact h0
      have hlt : (p <<< 7) % 2 ^ 64 < 2 ^ 64 := Nat.mod_lt _ (by positivity)
      have hr := ih ((p <<< 7) % 2 ^ 64) ((p >>> 56) ||| 0x01) false hlt hrec
      show (chunkLoop (fuel + 1 + 1) p b f).isSome = true
      rw [chunkLoop, if_neg hpz]
      cases f with
      | false =>
        simp only [Bool.false_eq_true, ite_false]
        cases hc : chunkLoop (fuel + 1) (p <<< 7 % 2 ^ 64) ((p >>> 56) ||| 1) false with
        | none =>
          rw [hc] at hr
          exact absurd hr (by simp)
        | some out => rfl
      | true =>
        simp only [ite_true]
        exact hr

theorem chunkLoop_struct (fuel : Nat) :
    ∀ p b f out, chunkLoop fuel p b f = some out → (f = false → b % 2 = 1) →
      ∃ mid last, out = mid ++ [last] ∧ (∀ x ∈ mid, x % 2 = 1) ∧ last % 2 = 0 := by
  induction fuel with
  | zero =>
    intro p b f out h hb
    exact absurd h (by simp [chunkLoop])
  | succ fuel ih =>
    intro p b f out h hb
    simp only [chunkLoop] at h
    by_cases hpz : p = 0
    · simp only [hpz, if_true, ite_true] at h
      obtain rfl : [b &&& 0xFE] = out := Option.some.inj h
      exact ⟨[], b &&& 0xFE, rfl, by simp, and_254_even b⟩
    · simp only [hpz, if_false, ite_false] at h
      cases f with
      | true =>
        simp only [ite_true] at h
        exact ih _ _ _ _ h (fun _ => or_one_odd _)
      | false =>
        simp only [Bool.false_eq_true, ite_false] at h
        obtain ⟨out', hout', heq⟩ := Option.map_eq_some'.mp h
        obtain ⟨mid, last, rfl, hmid, hlast⟩ := ih _ _ _ _ hout' (fun _ => or_one_odd _)
        refine ⟨b :: mid, last, ?_, ?_, hlast⟩
        · rw [← heq, List.cons_append]
        · intro x hx
          rcases List.mem_cons.mp hx with rfl | hx
          · exact hb rfl
          · exact hmid x hx

/-- C7: for every number component, the chunked emission loop of the
binary-encoding writers terminates (fuel 10 suffices for any 64-bit payload),
and the emitted byte sequence is self-terminating: the first byte holds the
top 8 bits of the order-preserving uint64 encoding, every subsequent byte
except the last has its low bit set to 1, and the final byte has its low bit
cleared to 0.  Both writers emit exactly the Number marker followed by this
sequence. -/
theorem c7_number_chunks_terminate (bits : Nat) :
    (chunkLoop 10 ((encodeDoubleAsUInt64 bits <<< 8) % 2 ^ 64) 0 true).isSome = true
    ∧ (∃ mid last,
        numberBody bits = (encodeDoubleAsUInt64 bits >>> 56) :: (mid ++ [last])
        ∧ (∀ x ∈ mid, x % 2 = 1) ∧ last % 2 = 0)
    ∧ writeForBinaryEncodingV1 (Component.float bits)
        = Except.ok (numberMarker :: numberBody bits)
    ∧ writeForBinaryEncoding (Component.float bits)
        = Except.ok (numberMarker :: numberBody bits) := by
  have hp : (encodeDoubleAsUInt64 bits <<< 8) % 2 ^ 64 < 2 ^ 64 :=
    Nat.mod_lt _ (by positivity)
  have hdiv : ((encodeDoubleAsUInt64 bits <<< 8) % 2 ^ 64) * 2 ^ (7 * 9) % 2 ^ 64 = 0 := by
    rw [Nat.mod_mul_mod, Nat.shiftLeft_eq, Nat.mul_assoc, ← Nat.pow_add]
    have hsplit : (2 : Nat) ^ (8 + 7 * 9) = 2 ^ 7 * 2 ^ 64 := by norm_num
    rw [hsplit, ← Nat.mul_assoc]
    exact Nat.mul_mod_left _ _
  have hsome : (chunkLoop 10 ((encodeDoubleAsUInt64 bits <<< 8) % 2 ^ 64) 0 true).isSome = true :=
    chunkLoop_isSome 9 _ 0 true hp hdiv
  refine ⟨hsome, ?_, rfl, rfl⟩
  obtain ⟨out, hout⟩ := Option.isSome_iff_exists.mp hsome
  obtain ⟨mid, last, rfl, hmid, hlast⟩ :=
    chunkLoop_struct 10 _ _ _ _ hout (by simp)
  refine ⟨mid, last, ?_, hmid, hlast⟩
  simp only [numberBody]
  rw [hout]
  rfl

/-- C8: for every non-empty value under kind Hash and version V1, the
effective key is computed by truncating every string component to its first
100 characters, coercing every integer component through unsigned-32-bit
truncation and back to float64, writing the resulting components with the
0x00-suffix hashing writer, hashing with MurmurHash3-32 seeded 0, prepending
the 32-bit hash (as float64) to the truncated component list, encoding that
list with the v1 binary-encoding writer, and hex-encoding the bytes. -/
theorem c8_hash_v1_pipeline (v : List Component) (h : v ≠ []) :
    getHashedPartitionKeyString "Hash" 1 v = (epkHashV1 v).map EpkVal.strVal
    ∧ epkHashV1 v = toHexEncodedBinaryStringV1
        (Component.float (floatBitsOfNat (murmur32
            ((v.map fun c =>
              writeForHashing (coerceUInt32 (truncateForV1Hashing c))).flatten) 0))
          :: v.map truncateForV1Hashing)
    ∧ (∀ s, truncateForV1Hashing (Component.str s) = Component.str ⟨s.data.take 100⟩)
    ∧ (∀ n : Int, coerceUInt32 (Component.int n)
        = Component.float (floatBitsOfNat (n % (2 ^ 32 : Int)).toNat)) := by
  refine ⟨?_, ?_, fun s => rfl, fun n => rfl⟩
  · have hv : v.isEmpty = false := by
      cases v with
      | nil => exact absurd rfl h
      | cons a l => rfl
    simp [getHashedPartitionKeyString, hv]
  · simp only [epkHashV1, List.map_map]
    rfl

/-- Witness for C8 at the concrete non-empty value `[true]`. -/
theorem c8_witness :
    [Component.bool true] ≠ ([] : List Component)
    ∧ getHashedPartitionKeyString "Hash" 1 [Component.bool true]
        = (epkHashV1 [Component.bool true]).map EpkVal.strVal :=
  ⟨by decide, (c8_hash_v1_pipeline [Component.bool true] (by decide)).1⟩

theorem hexDigitLower_mem (n : Nat) : hexDigitLower n ∈ lowerHexChars := by
  unfold hexDigitLower lowerHexChars
  by_cases h : n < 16
  · interval_cases n <;> decide
  · have hlen : "0123456789abcdef".data.length = 16 := rfl
    rw [List.getD_eq_default _ _ (by omega)]
    decide

theorem hexDigitUpper_mem (n : Nat) : hexDigitUpper n ∈ upperHexChars := by
  unfold hexDigitUpper upperHexChars
  by_cases h : n < 16
  · interval_cases n <;> decide
  · have hlen : "0123456789ABCDEF".data.length = 16 := rfl
    rw [List.getD_eq_default _ _ (by omega)]
    decide

theorem upperChar_hexLower_mem (c : Char) (h : c ∈ lowerHexChars) :
    upperChar c ∈ upperHexChars := by
  fin_cases h <;> decide

theorem mem_toHexLower_data (bytes : List Nat) (c : Char)
    (h : c ∈ (toHexLower bytes).data) : c ∈ lowerHexChars := by
  simp only [toHexLower, List.mem_flatMap] at h
  obtain ⟨b, _, hc⟩ := h
  simp only [List.mem_cons, List.not_mem_nil, or_false] at hc
  rcases hc with rfl | rfl
  · exact hexDigitLower_mem _
  · exact hexDigitLower_mem _

theorem mem_pyJoin_data (l : List String) (c : Char) :
    c ∈ (pyJoin l).data ↔ ∃ s ∈ l, c ∈ s.data := by
  simp [pyJoin, List.mem_flatten]

theorem allLowerHex_toHexLower (bytes : List Nat) :
    allLowerHex (toHexLower bytes) = true := by
  simp only [allLowerHex, List.all_eq_true]
  intro c hc
  exact List.elem_eq_true_of_mem (mem_toHexLower_data bytes c hc)

theorem allUpperHex_epkHashV2 (v : List Component) :
    allUpperHex (epkHashV2 v) = true := by
  simp only [allUpperHex, List.all_eq_true]
  intro c hc
  simp only [epkHashV2] at hc
  rw [mem_pyJoin_data] at hc
  obtain ⟨s, hs, hcs⟩ := hc
  obtain ⟨b, _, rfl⟩ := List.mem_map.mp hs
  simp only [byteToHexUpper, List.mem_cons, List.not_mem_nil, or_false] at hcs
  rcases hcs with rfl | rfl
  · exact List.elem_eq_true_of_mem (hexDigitUpper_mem _)
  · exact List.elem_eq_true_of_mem (hexDigitUpper_mem _)

theorem allUpperHex_epkMultiHashV2 (v : List Component) :
    allUpperHex (epkMultiHashV2 v) = true := by
  simp only [allUpperHex, List.all_eq_true]
  intro c hc
  simp only [epkMultiHashV2, pyUpper, List.mem_map] at hc
  obtain ⟨c0, hc0, rfl⟩ := hc
  rw [mem_pyJoin_data] at hc0
  obtain ⟨s, hs, hcs⟩ := hc0
  obtain ⟨w, _, rfl⟩ := List.mem_map.mp hs
  have hlow : c0 ∈ lowerHexChars := mem_toHexLower_data _ c0 hcs
  exact List.elem_eq_true_of_mem (upperChar_hexLower_mem c0 hlow)

theorem allLowerHexOk_epkHashV1 (v : List Component) :
    allLowerHexOk (epkHashV1 v) = true := by
  simp only [epkHashV1, toHexEncodedBinaryStringV1]
  cases hc : collectBinaryBytesV1 (Component.float (floatBitsOfNat (murmur32
      ((v.map truncateForV1Hashing).map fun component =>
        writeForHashing (coerceUInt32 component)).flatten 0))
      :: v.map truncateForV1Hashing) with
  | error e => rfl
  | ok bs =>
    show allLowerHexOk (Except.ok (toHexLower bs)) = true
    exact allLowerHex_toHexLower bs

/-- C9 (amended: Hash V2 and MultiHash V2 produce only uppercase hexadecimal
digits, while Hash V1 produces only lowercase hexadecimal digits — its
`_to_hex` hexlify output is never upper-cased). -/
theorem c9_hex_alphabets (v : List Component) :
    allUpperHex (epkHashV2 v) = true
    ∧ allUpperHex (epkMultiHashV2 v) = true
    ∧ allLowerHexOk (epkHashV1 v) = true :=
  ⟨allUpperHex_epkHashV2 v, allUpperHex_epkMultiHashV2 v, allLowerHexOk_epkHashV1 v⟩

/-- C9 counterexample: the Hash V1 effective key of `["z"]` is an `ok` string
that contains lowercase hex letters, so it does not consist only of uppercase
hexadecimal digits. -/
theorem c9_counterexample :
    allUpperHexOk (epkHashV1 [Component.str "z"]) = false := by decide

end CosmosPartition
